import Mathlib

/-!
Shallow embedding of `src/task_cli.py` (class `TaskTracker`).

The Python store `self.tasks` is a `dict` whose keys are produced in two ways:
as Python `int`s (by `add_task`, which inserts at `task_id = get_next_id()`)
and as JSON strings (by `load_tasks`, because `json.load` returns objects
with string keys even though `json.dump` serialized integer keys).  A key is
therefore modelled as a sum of the two Python types, and the store as an
insertion-ordered association list, matching `dict` iteration order.

Timestamps (`datetime.now().isoformat()`) are uninterpreted strings; every operation
that reads the clock takes the current time as an explicit `now` argument.
-/

namespace TaskCli

/-- A Python dict key as it occurs in `self.tasks`: an `int` or a `str`. -/
inductive Key where
  | kint : Nat → Key
  | kstr : String → Key
deriving DecidableEq

/-- One task record, the dict built in `add_task` (same five fields). -/
structure Task where
  id : Nat
  description : String
  status : String
  createdAt : String
  updatedAt : String
deriving DecidableEq

/-- The in-memory store `self.tasks`: an insertion-ordered map. -/
abbrev Store := List (Key × Task)

/-- The keys of the store, in insertion order (`self.tasks.keys()`). -/
def storeKeys (s : Store) : List Key := s.map Prod.fst

/-- The values of the store, in insertion order (`self.tasks.values()`). -/
def storeValues (s : Store) : List Task := s.map Prod.snd

/-- Dict read `self.tasks[k]`, as an option (`none` when the key is absent,
which in Python is what `k not in self.tasks` reports). -/
def lookupTask : Store → Key → Option Task
  | [], _ => none
  | (k1, t) :: rest, k => if k1 = k then some t else lookupTask rest k

/-- Dict assignment `self.tasks[k] = t`: replaces in place when the key is
present, appends otherwise. -/
def setTask : Store → Key → Task → Store
  | [], k, t => [(k, t)]
  | (k1, t1) :: rest, k, t =>
    if k1 = k then (k, t) :: rest else (k1, t1) :: setTask rest k t

/-- Dict deletion `del self.tasks[k]`. -/
def delTask : Store → Key → Store
  | [], _ => []
  | (k1, t1) :: rest, k =>
    if k1 = k then delTask rest k else (k1, t1) :: delTask rest k

/-- Python comparison `max(a, b)` on two keys: defined within one type
(`int` order, lexicographic `str` order), a `TypeError` (`none`) across
types. -/
def keyMax2 : Key → Key → Option Key
  | Key.kint a, Key.kint b => some (Key.kint (Nat.max a b))
  | Key.kstr a, Key.kstr b => some (Key.kstr (if a < b then b else a))
  | _, _ => none

/-- The fold inside Python `max(iterable)` starting from a first element. -/
def pyMaxGo : Key → List Key → Option Key
  | acc, [] => some acc
  | acc, k :: rest =>
    match keyMax2 acc k with
    | some m => pyMaxGo m rest
    | none => none

/-- Python `max(keys, default=0)`: the default `0` is an `int`. -/
def pyMax : List Key → Option Key
  | [] => some (Key.kint 0)
  | k :: rest => pyMaxGo k rest

/-- `get_next_id`: `max(self.tasks.keys(), default=0) + 1`.  Adding `1` to a
`str` maximum is a `TypeError`, as is `max` over mixed key types, so the
result is `none` unless the maximum is an `int`. -/
def get_next_id (s : Store) : Option Nat :=
  match pyMax (storeKeys s) with
  | some (Key.kint n) => some (n + 1)
  | _ => none

/-- `add_task(description)`: fresh id from `get_next_id`, inserts the new
record at the integer key, returns the id.  `none` is the `TypeError` path
(reachable only when the store holds non-integer keys). -/
def add_task (s : Store) (description : String) (now : String) :
    Option (Nat × Store) :=
  match get_next_id s with
  | some i =>
    some (i, setTask s (Key.kint i) ⟨i, description, "todo", now, now⟩)
  | none => none

/-- Result of a mutating method: the returned bool, the store afterwards, and
whether `save_tasks` was called on this path. -/
structure MutResult where
  ok : Bool
  tasks : Store
  wrote : Bool
deriving DecidableEq

/-- `update_task(task_id, description)`: the membership test
`task_id not in self.tasks` checks the integer key. -/
def update_task (s : Store) (task_id : Nat) (description : String)
    (now : String) : MutResult :=
  match lookupTask s (Key.kint task_id) with
  | none => ⟨false, s, false⟩
  | some t =>
    ⟨true,
      setTask s (Key.kint task_id)
        { t with description := description, updatedAt := now },
      true⟩

/-- `delete_task(task_id)`. -/
def delete_task (s : Store) (task_id : Nat) : MutResult :=
  match lookupTask s (Key.kint task_id) with
  | none => ⟨false, s, false⟩
  | some _ => ⟨true, delTask s (Key.kint task_id), true⟩

/-- The list `["todo", "in-progress", "done"]` from `mark_task_status`. -/
def validStatuses : List String := ["todo", "in-progress", "done"]

/-- `mark_task_status(task_id, status)`: fails when the id is absent or the
status is not one of the three recognized strings. -/
def mark_task_status (s : Store) (task_id : Nat) (status : String)
    (now : String) : MutResult :=
  match lookupTask s (Key.kint task_id) with
  | none => ⟨false, s, false⟩
  | some t =>
    if status ∈ validStatuses then
      ⟨true,
        setTask s (Key.kint task_id)
          { t with status := status, updatedAt := now },
        true⟩
    else ⟨false, s, false⟩

/-- `list_tasks(status)`: all values, or the comprehension filtering on
`task["status"] == status`. -/
def list_tasks (s : Store) (status : Option String) : List Task :=
  match status with
  | none => storeValues s
  | some st => (storeValues s).filter (fun t => decide (t.status = st))

/-- How `json.dump` serializes a dict key: an `int` key becomes its decimal
string, a `str` key is kept. -/
def keyToJson : Key → String
  | Key.kint n => toString n
  | Key.kstr str => str

/-- `save_tasks`: the persisted JSON object, keyed by strings. -/
def save_tasks (s : Store) : List (String × Task) :=
  s.map (fun p => (keyToJson p.1, p.2))

/-- `load_tasks`: `none` models a missing file (or a `json.JSONDecodeError`),
giving the empty store; a parsed file becomes a store whose keys are the
string keys of the JSON object. -/
def load_tasks (file : Option (List (String × Task))) : Store :=
  match file with
  | none => []
  | some m => m.map (fun p => (Key.kstr p.1, p.2))

/-- Is this key a Python `int`? -/
def isIntKey : Key → Bool
  | Key.kint _ => true
  | Key.kstr _ => false

/-- All keys of the store are integers (true of every store never touched by
`load_tasks` on an existing file). -/
def allIntKeys (s : Store) : Bool := (storeKeys s).all isIntKey

/-- The integer value of an integer key. -/
def keyToNat? : Key → Option Nat
  | Key.kint n => some n
  | Key.kstr _ => none

/-- The integer keys of the store, in insertion order. -/
def intIds : Store → List Nat
  | [] => []
  | (Key.kint n, _) :: rest => n :: intIds rest
  | (Key.kstr _, _) :: rest => intIds rest

/-- `max(existing integer ids, default 0)`. -/
def maxId (s : Store) : Nat := (intIds s).foldl Nat.max 0

/-- The spec invariant: every key equals the `id` field stored under it
(as the integer key of that id). -/
def keysMatchIds (s : Store) : Bool :=
  s.all (fun p => decide (p.1 = Key.kint p.2.id))

/-- One user-level mutation for id-sequence traces: an `add` (with its
description and timestamp) or a `delete` of an id. -/
inductive Op where
  | add : String → String → Op
  | del : Nat → Op

/-- Run a trace of adds and deletes, collecting the ids the adds return;
`none` when some `add` hits the `TypeError` path. -/
def runOps : Store → List Op → Option (Store × List Nat)
  | s, [] => some (s, [])
  | s, Op.add d n :: ops =>
    match add_task s d n with
    | some (i, s2) =>
      match runOps s2 ops with
      | some (sf, ids) => some (sf, i :: ids)
      | none => none
    | none => none
  | s, Op.del i :: ops => runOps (delete_task s i).tasks ops

/-- Just the ids returned by the adds of a trace. -/
def runIds (s : Store) (ops : List Op) : Option (List Nat) :=
  (runOps s ops).map Prod.snd

/-- Number of adds in a trace. -/
def countAdds : List Op → Nat
  | [] => 0
  | Op.add _ _ :: ops => countAdds ops + 1
  | Op.del _ :: ops => countAdds ops

/-- The consecutive ids `start, start+1, ..., start+n-1`. -/
def consecFrom : Nat → Nat → List Nat
  | _, 0 => []
  | start, n + 1 => start :: consecFrom (start + 1) n

/-- No delete of the trace, executed from the given store, removes the
then-maximal id of the store. -/
def avoidsMaxDelete : Store → List Op → Bool
  | _, [] => true
  | s, Op.add d n :: ops =>
    match add_task s d n with
    | some (_, s2) => avoidsMaxDelete s2 ops
    | none => false
  | s, Op.del i :: ops =>
    (decide (lookupTask s (Key.kint i) = none) || decide (¬ i = maxId s))
      && avoidsMaxDelete (delete_task s i).tasks ops

/-- The "strictly increasing by 1" property of a list of ids. -/
def strictIncBy1 : List Nat → Bool
  | [] => true
  | [_] => true
  | a :: b :: rest => decide (b = a + 1) && strictIncBy1 (b :: rest)

/-! ### Basic lemmas about the dict operations -/

theorem lookupTask_eq_none_iff (s : Store) (k : Key) :
    lookupTask s k = none ↔ k ∉ storeKeys s := by
  induction s with
  | nil => simp [lookupTask, storeKeys]
  | cons p rest ih =>
    obtain ⟨k1, t1⟩ := p
    by_cases h : k1 = k
    · subst h; simp [lookupTask, storeKeys]
    · simp only [lookupTask, if_neg h, storeKeys, List.map_cons, List.mem_cons,
        not_or, ih, storeKeys]
      constructor
      · intro hk; exact ⟨fun he => h he.symm, hk⟩
      · intro hk; exact hk.2

theorem lookupTask_setTask_self (s : Store) (k : Key) (t : Task) :
    lookupTask (setTask s k t) k = some t := by
  induction s with
  | nil => simp [setTask, lookupTask]
  | cons p rest ih =>
    obtain ⟨k1, t1⟩ := p
    by_cases h : k1 = k
    · simp [setTask, if_pos h, lookupTask]
    · simp [setTask, if_neg h, lookupTask, if_neg h, ih]

theorem lookupTask_setTask_ne (s : Store) (k k2 : Key) (t : Task)
    (h : k2 ≠ k) : lookupTask (setTask s k t) k2 = lookupTask s k2 := by
  induction s with
  | nil => simp [setTask, lookupTask, if_neg (Ne.symm h)]
  | cons p rest ih =>
    obtain ⟨k1, t1⟩ := p
    by_cases h1 : k1 = k
    · subst h1
      simp [setTask, lookupTask, if_neg (Ne.symm h)]
    · by_cases h2 : k1 = k2
      · simp [setTask, if_neg h1, lookupTask, if_pos h2]
      · simp [setTask, if_neg h1, lookupTask, if_neg h2, ih]

theorem setTask_of_not_mem (s : Store) (k : Key) (t : Task)
    (h : k ∉ storeKeys s) : setTask s k t = s ++ [(k, t)] := by
  induction s with
  | nil => simp [setTask]
  | cons p rest ih =>
    obtain ⟨k1, t1⟩ := p
    simp only [storeKeys, List.map_cons, List.mem_cons, not_or] at h
    simp [setTask, if_neg (Ne.symm h.1), ih h.2]

theorem lookupTask_delTask_ne (s : Store) (k k2 : Key) (h : k2 ≠ k) :
    lookupTask (delTask s k) k2 = lookupTask s k2 := by
  induction s with
  | nil => simp [delTask]
  | cons p rest ih =>
    obtain ⟨k1, t1⟩ := p
    by_cases h1 : k1 = k
    · subst h1
      simp [delTask, lookupTask, if_neg (fun he : k1 = k2 => h he.symm), ih]
    · by_cases h2 : k1 = k2
      · simp [delTask, if_neg h1, lookupTask, if_pos h2]
      · simp [delTask, if_neg h1, lookupTask, if_neg h2, ih]

/-! ### Lemmas about `max` folds over the ids -/

theorem le_foldl_nat_max (l : List Nat) (a : Nat) : a ≤ l.foldl Nat.max a := by
  induction l generalizing a with
  | nil => simp
  | cons b l ih =>
    exact le_trans (Nat.le_max_left a b) (ih (Nat.max a b))

theorem mem_le_foldl_nat_max (l : List Nat) (a x : Nat) (hx : x ∈ l) :
    x ≤ l.foldl Nat.max a := by
  induction l generalizing a with
  | nil => cases hx
  | cons b l ih =>
    rcases List.mem_cons.mp hx with h | h
    · subst h
      exact le_trans (Nat.le_max_right a x) (le_foldl_nat_max l (Nat.max a x))
    · exact ih (Nat.max a b) h


theorem foldl_nat_max_le (l : List Nat) (a c : Nat) (ha : a ≤ c)
    (hl : ∀ x ∈ l, x ≤ c) : l.foldl Nat.max a ≤ c := by
  induction l generalizing a with
  | nil => exact ha
  | cons b l ih =>
    exact ih (Nat.max a b) (Nat.max_le.mpr ⟨ha, hl b (List.mem_cons_self b l)⟩)
      (fun x hx => hl x (List.mem_cons_of_mem b hx))

theorem foldl_nat_max_mem_or (l : List Nat) (a : Nat) :
    l.foldl Nat.max a = a ∨ l.foldl Nat.max a ∈ l := by
  induction l generalizing a with
  | nil => exact Or.inl rfl
  | cons b l ih =>
    rcases ih (Nat.max a b) with h | h
    · rcases Nat.le_total a b with hab | hab
      · have hm : Nat.max a b = b := Nat.max_eq_right hab
        rw [List.foldl_cons, h, hm]
        exact Or.inr (List.mem_cons_self b l)
      · have hm : Nat.max a b = a := Nat.max_eq_left hab
        rw [List.foldl_cons, h, hm]
        exact Or.inl rfl
    · exact Or.inr (List.mem_cons_of_mem b h)

theorem foldl_nat_max_zero_mem (l : List Nat) (hl : l ≠ []) :
    l.foldl Nat.max 0 ∈ l := by
  rcases foldl_nat_max_mem_or l 0 with h | h
  · cases l with
    | nil => exact absurd rfl hl
    | cons b l2 =>
      have hb : b ≤ 0 := by
        have := mem_le_foldl_nat_max (b :: l2) 0 b (List.mem_cons_self b l2)
        omega
      have hb0 : b = 0 := Nat.le_zero.mp hb
      rw [h, ← hb0]
      exact List.mem_cons_self b l2
  · exact h

/-! ### Characterizing `get_next_id` on integer-keyed stores -/

theorem pyMaxGo_int (l : List Key) (a : Nat) (h : l.all isIntKey = true) :
    pyMaxGo (Key.kint a) l
      = some (Key.kint ((l.filterMap keyToNat?).foldl Nat.max a)) := by
  induction l generalizing a with
  | nil => simp [pyMaxGo]
  | cons k rest ih =>
    cases k with
    | kint b =>
      simp only [List.all_cons, Bool.and_eq_true] at h
      simp only [pyMaxGo, keyMax2, List.filterMap_cons, keyToNat?,
        List.foldl_cons]
      exact ih (Nat.max a b) h.2
    | kstr str =>
      simp [List.all_cons, isIntKey] at h

theorem intIds_eq_filterMap (s : Store) :
    intIds s = (storeKeys s).filterMap keyToNat? := by
  induction s with
  | nil => rfl
  | cons p rest ih =>
    obtain ⟨k, t⟩ := p
    cases k with
    | kint n => simp [intIds, storeKeys, List.filterMap_cons, keyToNat?, ih]
    | kstr str => simp [intIds, storeKeys, List.filterMap_cons, keyToNat?, ih]

theorem get_next_id_allInt (s : Store) (h : allIntKeys s = true) :
    get_next_id s = some (maxId s + 1) := by
  cases s with
  | nil => rfl
  | cons p rest =>
    obtain ⟨k, t⟩ := p
    cases k with
    | kint n =>
      simp only [allIntKeys, storeKeys, List.map_cons, List.all_cons,
        Bool.and_eq_true] at h
      have hmax := pyMaxGo_int (storeKeys rest) n h.2
      have hval : maxId ((Key.kint n, t) :: rest)
          = List.foldl Nat.max n ((storeKeys rest).filterMap keyToNat?) := by
        rw [maxId, ← intIds_eq_filterMap]
        show List.foldl Nat.max 0 (n :: intIds rest)
          = List.foldl Nat.max n (intIds rest)
        rw [List.foldl_cons]
        congr 1
        simp
      rw [get_next_id,
        show storeKeys ((Key.kint n, t) :: rest)
          = Key.kint n :: storeKeys rest from rfl]
      rw [pyMax, hmax, hval]
    | kstr str =>
      simp [allIntKeys, storeKeys, isIntKey] at h

theorem mem_intIds_iff (s : Store) (n : Nat) :
    n ∈ intIds s ↔ Key.kint n ∈ storeKeys s := by
  induction s with
  | nil => simp [intIds, storeKeys]
  | cons p rest ih =>
    obtain ⟨k, t⟩ := p
    cases k with
    | kint m => simp [intIds, storeKeys, ih]
    | kstr str => simp [intIds, storeKeys, ih]

theorem le_maxId_of_mem (s : Store) (n : Nat) (h : n ∈ intIds s) :
    n ≤ maxId s :=
  mem_le_foldl_nat_max (intIds s) 0 n h

theorem next_id_fresh (s : Store) : Key.kint (maxId s + 1) ∉ storeKeys s := by
  intro hmem
  have h1 : maxId s + 1 ∈ intIds s := (mem_intIds_iff s (maxId s + 1)).mpr hmem
  have h2 := le_maxId_of_mem s (maxId s + 1) h1
  omega

theorem add_task_allInt (s : Store) (d now : String) (h : allIntKeys s = true) :
    add_task s d now
      = some (maxId s + 1,
          s ++ [(Key.kint (maxId s + 1),
            ⟨maxId s + 1, d, "todo", now, now⟩)]) := by
  simp only [add_task, get_next_id_allInt s h]
  rw [setTask_of_not_mem s (Key.kint (maxId s + 1)) _ (next_id_fresh s)]

/-! ### Preservation of integer-keyedness and of the maximal id -/

theorem allIntKeys_append_int (s : Store) (i : Nat) (t : Task)
    (h : allIntKeys s = true) :
    allIntKeys (s ++ [(Key.kint i, t)]) = true := by
  simp only [allIntKeys, storeKeys, List.map_append, List.all_append] at *
  simp [h, isIntKey]

theorem intIds_append_int (s : Store) (i : Nat) (t : Task) :
    intIds (s ++ [(Key.kint i, t)]) = intIds s ++ [i] := by
  induction s with
  | nil => rfl
  | cons p rest ih =>
    obtain ⟨k, t1⟩ := p
    cases k with
    | kint n => simp [intIds, ih]
    | kstr str => simp [intIds, ih]

theorem maxId_append_int (s : Store) (i : Nat) (t : Task) :
    maxId (s ++ [(Key.kint i, t)]) = Nat.max (maxId s) i := by
  rw [maxId, intIds_append_int, List.foldl_append]
  rfl

theorem allIntKeys_delTask (s : Store) (k : Key) (h : allIntKeys s = true) :
    allIntKeys (delTask s k) = true := by
  induction s with
  | nil => simp [delTask, allIntKeys, storeKeys]
  | cons p rest ih =>
    obtain ⟨k1, t1⟩ := p
    simp only [allIntKeys, storeKeys, List.map_cons, List.all_cons,
      Bool.and_eq_true] at h
    by_cases h1 : k1 = k
    · simpa [delTask, if_pos h1, allIntKeys] using ih h.2
    · have := ih h.2
      simp only [allIntKeys, storeKeys] at this
      simp [delTask, if_neg h1, allIntKeys, storeKeys, h.1, this]

theorem intIds_delTask_kint (s : Store) (i : Nat) :
    intIds (delTask s (Key.kint i))
      = (intIds s).filter (fun n => decide (¬ n = i)) := by
  induction s with
  | nil => rfl
  | cons p rest ih =>
    obtain ⟨k1, t1⟩ := p
    cases k1 with
    | kint m =>
      by_cases hm : m = i
      · subst hm
        simp [delTask, intIds, List.filter, ih]
      · have hne : ¬ Key.kint m = Key.kint i := by
          simp [hm]
        simp [delTask, if_neg hne, intIds, List.filter, hm, ih]
    | kstr str =>
      have hne : ¬ Key.kstr str = Key.kint i := by intro he; cases he
      simp [delTask, if_neg hne, intIds, ih]

theorem maxId_delTask (s : Store) (i : Nat)
    (hmem : Key.kint i ∈ storeKeys s) (hne : i ≠ maxId s) :
    maxId (delTask s (Key.kint i)) = maxId s := by
  have hi : i ∈ intIds s := (mem_intIds_iff s i).mpr hmem
  have hnil : intIds s ≠ [] := by
    intro he; rw [he] at hi; cases hi
  have hmax_mem : maxId s ∈ intIds s := foldl_nat_max_zero_mem (intIds s) hnil
  have hmax_mem2 : maxId s ∈ intIds (delTask s (Key.kint i)) := by
    rw [intIds_delTask_kint]
    exact List.mem_filter.mpr ⟨hmax_mem, by simp [Ne.symm hne]⟩
  apply Nat.le_antisymm
  · apply foldl_nat_max_le _ 0 (maxId s) (Nat.zero_le _)
    intro x hx
    rw [intIds_delTask_kint] at hx
    exact le_maxId_of_mem s x (List.mem_filter.mp hx).1
  · exact mem_le_foldl_nat_max _ 0 (maxId s) hmax_mem2

theorem mem_of_lookupTask_some (s : Store) (k : Key) (t : Task)
    (h : lookupTask s k = some t) : k ∈ storeKeys s := by
  by_contra hmem
  rw [(lookupTask_eq_none_iff s k).mpr hmem] at h
  cases h

/-! ### The id sequence of an add/delete trace -/

theorem runOps_consec (ops : List Op) : ∀ s : Store,
    allIntKeys s = true → avoidsMaxDelete s ops = true →
    ∃ sf, runOps s ops = some (sf, consecFrom (maxId s + 1) (countAdds ops)) := by
  induction ops with
  | nil => exact fun s _ _ => ⟨s, rfl⟩
  | cons op ops ih =>
    intro s h1 h2
    cases op with
    | add d n =>
      have hadd := add_task_allInt s d n h1
      set s2 := s ++ [(Key.kint (maxId s + 1),
        (⟨maxId s + 1, d, "todo", n, n⟩ : Task))] with hs2
      have h1b : allIntKeys s2 = true := allIntKeys_append_int s _ _ h1
      have hmax2 : maxId s2 = maxId s + 1 := by
        rw [hs2, maxId_append_int]
        exact Nat.max_eq_right (Nat.le_succ _)
      have h2b : avoidsMaxDelete s2 ops = true := by
        simp only [avoidsMaxDelete, hadd] at h2
        exact h2
      obtain ⟨sf, hrun⟩ := ih s2 h1b h2b
      refine ⟨sf, ?_⟩
      simp only [runOps, hadd, hrun, countAdds, consecFrom, hmax2]
    | del i =>
      simp only [avoidsMaxDelete, Bool.and_eq_true, Bool.or_eq_true,
        decide_eq_true_eq] at h2
      obtain ⟨hcond, h2rest⟩ := h2
      cases hlook : lookupTask s (Key.kint i) with
      | none =>
        have hdel : (delete_task s i).tasks = s := by
          simp only [delete_task, hlook]
        rw [hdel] at h2rest
        obtain ⟨sf, hrun⟩ := ih s h1 h2rest
        refine ⟨sf, ?_⟩
        simp only [runOps, hdel, hrun, countAdds]
      | some t0 =>
        have hmem : Key.kint i ∈ storeKeys s :=
          mem_of_lookupTask_some s (Key.kint i) t0 hlook
        have hne : i ≠ maxId s := by
          rcases hcond with hc | hc
          · rw [hlook] at hc; cases hc
          · exact hc
        have hdel : (delete_task s i).tasks = delTask s (Key.kint i) := by
          simp only [delete_task, hlook]
        rw [hdel] at h2rest
        obtain ⟨sf, hrun⟩ := ih (delTask s (Key.kint i))
          (allIntKeys_delTask s (Key.kint i) h1) h2rest
        refine ⟨sf, ?_⟩
        simp only [runOps, hdel, hrun, countAdds, maxId_delTask s i hmem hne]

/-! ### Claim theorems -/

/-- C1, counterexample: starting from the empty store, `add` returns id 1,
`delete 1` succeeds, and the next `add` returns id 1 again — the sequence of
ids returned by successive adds is `[1, 1]`, which repeats an earlier id and
is not strictly increasing by 1.  `get_next_id` is `max(existing ids) + 1`,
so deleting the maximal id frees it for reuse. -/
theorem add_ids_repeat_after_delete :
    runIds [] [Op.add "a" "t1", Op.del 1, Op.add "b" "t2"] = some [1, 1]
      ∧ strictIncBy1 [1, 1] = false := by
  constructor
  · rfl
  · rfl

/-- C1, amended: starting from any integer-keyed store, over any sequence of
add and delete operations in which no delete removes the current
maximal id of the store, the ids returned by the successive adds are exactly the
consecutive integers `maxId + 1, maxId + 2, ...` — strictly increasing by 1
and never repeating. -/
theorem add_ids_consecutive (ops : List Op) (s : Store)
    (h1 : allIntKeys s = true) (h2 : avoidsMaxDelete s ops = true) :
    runIds s ops = some (consecFrom (maxId s + 1) (countAdds ops)) := by
  obtain ⟨sf, hrun⟩ := runOps_consec ops s h1 h2
  simp [runIds, hrun]

/-- C1, witness: empty store, `add; add; delete 1; add` (deleting a
non-maximal id) yields the ids `[1, 2, 3]`. -/
theorem add_ids_consecutive_witness :
    runIds [] [Op.add "a" "t1", Op.add "b" "t2", Op.del 1, Op.add "c" "t3"]
      = some (consecFrom 1 3) :=
  add_ids_consecutive
    [Op.add "a" "t1", Op.add "b" "t2", Op.del 1, Op.add "c" "t3"] []
    (by decide) (by decide)

/-- C2, failing input: `save()` writes the integer key `1` as the JSON string
key `"1"`, and a fresh load reads it back as a string, so the reloaded
collection differs from the saved one and the operations diverge on it:
`delete 1` succeeds on the original but reports not-found on the reloaded
store, and `get_next_id` on the reloaded store is a `TypeError` instead of
`some 2`. -/
theorem save_load_not_roundtrip :
    add_task [] "milk" "t1"
        = some (1, [(Key.kint 1, ⟨1, "milk", "todo", "t1", "t1"⟩)])
      ∧ load_tasks (some (save_tasks
            [(Key.kint 1, ⟨1, "milk", "todo", "t1", "t1"⟩)]))
          = [(Key.kstr "1", ⟨1, "milk", "todo", "t1", "t1"⟩)]
      ∧ load_tasks (some (save_tasks
            [(Key.kint 1, ⟨1, "milk", "todo", "t1", "t1"⟩)]))
          ≠ [(Key.kint 1, ⟨1, "milk", "todo", "t1", "t1"⟩)]
      ∧ (delete_task [(Key.kint 1, ⟨1, "milk", "todo", "t1", "t1"⟩)] 1).ok
          = true
      ∧ (delete_task (load_tasks (some (save_tasks
            [(Key.kint 1, ⟨1, "milk", "todo", "t1", "t1"⟩)]))) 1).ok = false
      ∧ get_next_id [(Key.kint 1, ⟨1, "milk", "todo", "t1", "t1"⟩)] = some 2
      ∧ get_next_id (load_tasks (some (save_tasks
            [(Key.kint 1, ⟨1, "milk", "todo", "t1", "t1"⟩)]))) = none := by
  decide

/-- C3, failing input: the store reached by `add` from empty satisfies the
key-equals-id-field invariant, but the state reached from it by `save` then
`load` violates it — the key is the string `"1"` while the `id` field of the task
is the integer 1. -/
theorem keys_match_ids_violated_by_load :
    add_task [] "milk" "t1"
        = some (1, [(Key.kint 1, ⟨1, "milk", "todo", "t1", "t1"⟩)])
      ∧ keysMatchIds [(Key.kint 1, ⟨1, "milk", "todo", "t1", "t1"⟩)] = true
      ∧ keysMatchIds (load_tasks (some (save_tasks
            [(Key.kint 1, ⟨1, "milk", "todo", "t1", "t1"⟩)]))) = false := by
  decide

/-- C4: on any integer-keyed store (the key type of the data model), `add`
always succeeds, returns an id whose key was not present before the call,
and afterwards that key holds a task with the given description, status
`todo`, and `createdAt` equal to `updatedAt` (both are the same `now`). -/
theorem add_task_spec (s : Store) (d now : String)
    (h : allIntKeys s = true) :
    ∃ i s2, add_task s d now = some (i, s2)
      ∧ Key.kint i ∉ storeKeys s
      ∧ lookupTask s2 (Key.kint i) = some ⟨i, d, "todo", now, now⟩ := by
  refine ⟨maxId s + 1,
    setTask s (Key.kint (maxId s + 1)) ⟨maxId s + 1, d, "todo", now, now⟩,
    ?_, next_id_fresh s, lookupTask_setTask_self s _ _⟩
  simp only [add_task, get_next_id_allInt s h]

/-- C4, witness: `add "buy milk"` on the empty store. -/
theorem add_task_spec_witness :
    ∃ i s2, add_task [] "buy milk" "t0" = some (i, s2)
      ∧ Key.kint i ∉ storeKeys []
      ∧ lookupTask s2 (Key.kint i) = some ⟨i, "buy milk", "todo", "t0", "t0"⟩ :=
  add_task_spec [] "buy milk" "t0" (by decide)

/-- C5: for any id whose integer key is absent from the store (in particular
one just deleted), `update_task`, `delete_task` and `mark_task_status` all
return `False`, leave the collection unchanged, and never call
`save_tasks`. -/
theorem missing_id_noop (s : Store) (i : Nat) (d st now : String)
    (h : Key.kint i ∉ storeKeys s) :
    update_task s i d now = ⟨false, s, false⟩
      ∧ delete_task s i = ⟨false, s, false⟩
      ∧ mark_task_status s i st now = ⟨false, s, false⟩ := by
  have hl : lookupTask s (Key.kint i) = none :=
    (lookupTask_eq_none_iff s (Key.kint i)).mpr h
  refine ⟨?_, ?_, ?_⟩ <;>
    simp [update_task, delete_task, mark_task_status, hl]

/-- C5, witness: id 2 on a store holding only id 1. -/
theorem missing_id_noop_witness :
    update_task [(Key.kint 1, ⟨1, "a", "todo", "t0", "t0"⟩)] 2 "d" "t1"
        = ⟨false, [(Key.kint 1, ⟨1, "a", "todo", "t0", "t0"⟩)], false⟩
      ∧ delete_task [(Key.kint 1, ⟨1, "a", "todo", "t0", "t0"⟩)] 2
        = ⟨false, [(Key.kint 1, ⟨1, "a", "todo", "t0", "t0"⟩)], false⟩
      ∧ mark_task_status [(Key.kint 1, ⟨1, "a", "todo", "t0", "t0"⟩)] 2
          "done" "t1"
        = ⟨false, [(Key.kint 1, ⟨1, "a", "todo", "t0", "t0"⟩)], false⟩ :=
  missing_id_noop [(Key.kint 1, ⟨1, "a", "todo", "t0", "t0"⟩)] 2 "d" "done"
    "t1" (by decide)

/-- C6: `mark_task_status` returns `True` exactly when the integer key exists
and the status is one of the three recognized strings; on success the status of the task
becomes the given value and `updatedAt` is refreshed to `now`; on
failure (including an existing id with an unrecognized status) the
collection is unchanged and nothing is written. -/
theorem mark_task_status_spec (s : Store) (i : Nat) (st now : String) :
    ((mark_task_status s i st now).ok = true
        ↔ Key.kint i ∈ storeKeys s ∧ st ∈ validStatuses)
      ∧ (∀ t, lookupTask s (Key.kint i) = some t → st ∈ validStatuses →
          lookupTask (mark_task_status s i st now).tasks (Key.kint i)
            = some { t with status := st, updatedAt := now })
      ∧ ((mark_task_status s i st now).ok = false →
          (mark_task_status s i st now).tasks = s
            ∧ (mark_task_status s i st now).wrote = false) := by
  cases hlook : lookupTask s (Key.kint i) with
  | none =>
    have hmem : Key.kint i ∉ storeKeys s :=
      (lookupTask_eq_none_iff s (Key.kint i)).mp hlook
    refine ⟨?_, ?_, ?_⟩
    · simp [mark_task_status, hlook, hmem]
    · intro t ht; cases ht
    · intro _; simp [mark_task_status, hlook]
  | some t0 =>
    have hmem : Key.kint i ∈ storeKeys s :=
      mem_of_lookupTask_some s (Key.kint i) t0 hlook
    by_cases hst : st ∈ validStatuses
    · refine ⟨?_, ?_, ?_⟩
      · simp [mark_task_status, hlook, if_pos hst, hmem, hst]
      · intro t ht hst2
        injection ht with ht
        subst ht
        simp [mark_task_status, hlook, if_pos hst,
          lookupTask_setTask_self]
      · intro hok
        simp [mark_task_status, hlook, if_pos hst] at hok
    · refine ⟨?_, ?_, ?_⟩
      · simp [mark_task_status, hlook, if_neg hst, hst]
      · intro t ht hst2; exact absurd hst2 hst
      · intro _; simp [mark_task_status, hlook, if_neg hst]

/-- C6, witness: `mark_task_status` with the unrecognized status `"bogus"`
on an existing id fails and leaves the store unchanged without writing. -/
theorem mark_task_status_spec_witness :
    (mark_task_status [(Key.kint 1, ⟨1, "a", "todo", "t0", "t0"⟩)] 1
        "bogus" "t1").tasks = [(Key.kint 1, ⟨1, "a", "todo", "t0", "t0"⟩)]
      ∧ (mark_task_status [(Key.kint 1, ⟨1, "a", "todo", "t0", "t0"⟩)] 1
          "bogus" "t1").wrote = false :=
  (mark_task_status_spec [(Key.kint 1, ⟨1, "a", "todo", "t0", "t0"⟩)] 1
    "bogus" "t1").2.2 (by decide)

/-- C7: `list_tasks` with no filter returns all tasks in storage order; with
a filter it returns exactly the tasks whose status equals the filter (every
returned task has that status, every stored task with that status is
returned), as a sublist of the values, i.e. in storage order. -/
theorem list_tasks_spec (s : Store) (st : String) (t : Task) :
    list_tasks s none = storeValues s
      ∧ (t ∈ list_tasks s (some st) → t.status = st ∧ t ∈ storeValues s)
      ∧ (t ∈ storeValues s → t.status = st → t ∈ list_tasks s (some st))
      ∧ List.Sublist (list_tasks s (some st)) (storeValues s) := by
  refine ⟨rfl, ?_, ?_, ?_⟩
  · intro ht
    have := List.mem_filter.mp ht
    exact ⟨by simpa using this.2, this.1⟩
  · intro ht hst
    exact List.mem_filter.mpr ⟨ht, by simpa using hst⟩
  · exact List.filter_sublist _

/-- C7, witness: on a two-task store with statuses `done` and `todo`, the
`done` task is in `list_tasks (some "done")`. -/
theorem list_tasks_spec_witness :
    (⟨1, "a", "done", "t0", "t0"⟩ : Task)
      ∈ list_tasks [(Key.kint 1, ⟨1, "a", "done", "t0", "t0"⟩),
          (Key.kint 2, ⟨2, "b", "todo", "t0", "t0"⟩)] (some "done") :=
  (list_tasks_spec [(Key.kint 1, ⟨1, "a", "done", "t0", "t0"⟩),
      (Key.kint 2, ⟨2, "b", "todo", "t0", "t0"⟩)] "done"
    ⟨1, "a", "done", "t0", "t0"⟩).2.2.1 (by decide) (by decide)

/-- C8: on any integer-keyed store (the key type of the data model),
`get_next_id` returns the maximum of the existing ids plus 1 — in
particular 1 on the empty store — and, being a pure function of the state,
every existing id is strictly below the returned id.  (The embedding is
purely functional, so statelessness is by construction; the Python method
only reads `self.tasks.keys()`.) -/
theorem get_next_id_spec (s : Store) (i : Nat) (h : allIntKeys s = true) :
    get_next_id s = some (maxId s + 1)
      ∧ (i ∈ intIds s → i ≤ maxId s)
      ∧ (s = [] → get_next_id s = some 1) := by
  refine ⟨get_next_id_allInt s h, le_maxId_of_mem s i, ?_⟩
  intro he
  subst he
  rfl

/-- C8, witness: a store whose only id is 3 yields next id 4. -/
theorem get_next_id_spec_witness :
    get_next_id [(Key.kint 3, ⟨3, "a", "todo", "t0", "t0"⟩)] = some 4 :=
  (get_next_id_spec [(Key.kint 3, ⟨3, "a", "todo", "t0", "t0"⟩)] 3
    (by decide)).1

/-- C9: when the id exists, `update_task` replaces exactly the description
and `updatedAt` of that task (its `id`, `status` and `createdAt` are carried
over unchanged by the record update), leaves the binding of every other key
untouched, and neither `update_task` nor `mark_task_status` ever changes
the `createdAt` stored under any key. -/
theorem update_task_frame (s : Store) (i : Nat) (t : Task)
    (d st now : String) (k : Key)
    (ht : lookupTask s (Key.kint i) = some t) :
    (update_task s i d now).ok = true
      ∧ lookupTask (update_task s i d now).tasks (Key.kint i)
          = some { t with description := d, updatedAt := now }
      ∧ (k ≠ Key.kint i →
          lookupTask (update_task s i d now).tasks k = lookupTask s k)
      ∧ Option.map Task.createdAt
            (lookupTask (update_task s i d now).tasks k)
          = Option.map Task.createdAt (lookupTask s k)
      ∧ Option.map Task.createdAt
            (lookupTask (mark_task_status s i st now).tasks k)
          = Option.map Task.createdAt (lookupTask s k) := by
  have hupd : update_task s i d now
      = ⟨true, setTask s (Key.kint i)
          { t with description := d, updatedAt := now }, true⟩ := by
    simp only [update_task, ht]
  refine ⟨by rw [hupd], ?_, ?_, ?_, ?_⟩
  · rw [hupd]
    exact lookupTask_setTask_self s _ _
  · intro hk
    rw [hupd]
    exact lookupTask_setTask_ne s _ k _ hk
  · rw [hupd]
    by_cases hk : k = Key.kint i
    · subst hk
      rw [lookupTask_setTask_self s _ _, ht]
      rfl
    · rw [lookupTask_setTask_ne s _ k _ hk]
  · by_cases hst : st ∈ validStatuses
    · have hmark : (mark_task_status s i st now).tasks
          = setTask s (Key.kint i) { t with status := st, updatedAt := now } := by
        simp only [mark_task_status, ht, if_pos hst]
      rw [hmark]
      by_cases hk : k = Key.kint i
      · subst hk
        rw [lookupTask_setTask_self s _ _, ht]
        rfl
      · rw [lookupTask_setTask_ne s _ k _ hk]
    · have hmark : (mark_task_status s i st now).tasks = s := by
        simp only [mark_task_status, ht, if_neg hst]
      rw [hmark]

/-- C9, witness: updating task 1 in a two-task store rewrites its
description and `updatedAt` while keeping `id`, `status`, `createdAt`. -/
theorem update_task_frame_witness :
    lookupTask (update_task [(Key.kint 1, ⟨1, "a", "done", "t0", "t0"⟩),
        (Key.kint 2, ⟨2, "b", "todo", "t0", "t0"⟩)] 1 "new" "t2").tasks
      (Key.kint 1) = some ⟨1, "new", "done", "t0", "t2"⟩ :=
  (update_task_frame [(Key.kint 1, ⟨1, "a", "done", "t0", "t0"⟩),
      (Key.kint 2, ⟨2, "b", "todo", "t0", "t0"⟩)] 1
    ⟨1, "a", "done", "t0", "t0"⟩ "new" "done" "t2" (Key.kint 2)
    (by decide)).2.1

/-- C10: filtering by a status string that no stored task has — the filter
argument is never validated, so this includes arbitrary strings such as
`"bogus"` — returns the empty list (no failure path). -/
theorem list_tasks_no_match (s : Store) (st : String)
    (h : ∀ t ∈ storeValues s, ¬ t.status = st) :
    list_tasks s (some st) = [] := by
  simp only [list_tasks]
  rw [List.filter_eq_nil_iff]
  intro t ht
  simpa using h t ht

/-- C10, witness: filtering a one-task (`todo`) store by `"bogus"` yields
the empty list. -/
theorem list_tasks_no_match_witness :
    list_tasks [(Key.kint 1, ⟨1, "a", "todo", "t0", "t0"⟩)] (some "bogus")
      = [] :=
  list_tasks_no_match [(Key.kint 1, ⟨1, "a", "todo", "t0", "t0"⟩)] "bogus"
    (by decide)

end TaskCli
